import Mathlib

/-!
Shallow embedding of the scattered-photos animation/export core.

JS numbers are modelled as exact rationals (ℚ): every constant in the
animation code is a decimal literal, the easing polynomials use integer
exponents, and the interpolation arithmetic is field arithmetic, so ℚ is a
faithful carrier.  Sources embedded:

* `src/utils/animationEffects.ts` — `buildEffectPlan`, `easeOutBack`,
  `easeOutQuart`, `lerp`, `interpolateFrame`;
* `src/unnamed/part_000` (`handleExport`) — the export frame-capture loop;
* `src/unnamed/part_002` — `avcCodecForSize` and the setup/backpressure
  portions of `encodeMP4`.
-/

/-- `Photo` from `types.ts`. -/
structure Photo where
  id : String
  url : String
  x : ℚ
  y : ℚ
  rotation : ℚ
  zIndex : ℚ
  scale : ℚ
  width : Option ℚ
  height : Option ℚ
  timestamp : ℚ
deriving DecidableEq, Repr

/-- `AnimationEffect` from `types.ts`. -/
inductive AnimationEffect where
  | sequential
  | shuffle
  | flip
  | fade
deriving DecidableEq, Repr

/-- `Omit<PhotoAnimState, "id">` — the six numeric fields of a visual state. -/
structure AnimState where
  x : ℚ
  y : ℚ
  rotation : ℚ
  opacity : ℚ
  scale : ℚ
  rotateY : ℚ
deriving DecidableEq, Repr

/-- `PhotoAnimState` from `types.ts`. -/
structure PhotoAnimState where
  id : String
  x : ℚ
  y : ℚ
  rotation : ℚ
  opacity : ℚ
  scale : ℚ
  rotateY : ℚ
deriving DecidableEq, Repr

/-- The spread `{ id, ...s }` forming a `PhotoAnimState`. -/
def AnimState.withId (s : AnimState) (id : String) : PhotoAnimState :=
  { id := id, x := s.x, y := s.y, rotation := s.rotation,
    opacity := s.opacity, scale := s.scale, rotateY := s.rotateY }

/-- `PhotoEnterSpec` from `animationEffects.ts` (the `from`/`to` fields are
spelled `fromState`/`toState` because `from` is a Lean keyword). -/
structure PhotoEnterSpec where
  photoId : String
  fromState : AnimState
  toState : AnimState
  delay : ℚ
  duration : ℚ
deriving DecidableEq, Repr

/-- `EffectPlan` from `animationEffects.ts`. -/
structure EffectPlan where
  specs : List PhotoEnterSpec
  totalDuration : ℚ
deriving DecidableEq, Repr

/-- `defaultFrom` from `animationEffects.ts`. -/
def defaultFrom : AnimState :=
  { x := 0, y := 0, rotation := 0, opacity := 1, scale := 1, rotateY := 0 }

/-- `toState` from `animationEffects.ts`. -/
def toState (photo : Photo) : AnimState :=
  { x := photo.x, y := photo.y, rotation := photo.rotation,
    opacity := 1, scale := photo.scale, rotateY := 0 }

/-- The sort `[...photos].sort((a, b) => a.zIndex - b.zIndex)`: a stable sort
of a copy of the array, ascending by `zIndex`. -/
def sortByZIndex (photos : List Photo) : List Photo :=
  photos.mergeSort (fun a b => decide (a.zIndex ≤ b.zIndex))

/-- `buildEffectPlan` from `animationEffects.ts`.  The JS expression
`sorted.length - 1` is number (not truncated) subtraction, hence the cast to
ℚ before subtracting. -/
def buildEffectPlan (photos : List Photo) (effect : AnimationEffect)
    (containerWidth containerHeight : ℚ) : EffectPlan :=
  let sorted := sortByZIndex photos
  match effect with
  | AnimationEffect.sequential =>
      let stagger : ℚ := 0.35
      let enterDur : ℚ := 0.8
      let specs := sorted.mapIdx fun i photo =>
        { photoId := photo.id
          fromState := { defaultFrom with
            x := photo.x
            y := -350
            rotation := photo.rotation * 0.5
            opacity := 0
            scale := photo.scale * 0.8
            rotateY := 0 }
          toState := toState photo
          delay := (i : ℚ) * stagger
          duration := enterDur }
      let last : ℚ :=
        if sorted.length > 0 then ((sorted.length : ℚ) - 1) * stagger + enterDur
        else 1
      { specs := specs, totalDuration := last }
  | AnimationEffect.shuffle =>
      let cx := containerWidth / 2 - 110
      let cy := containerHeight / 2 - 140
      let gatherDur : ℚ := 0.5
      let scatterStagger : ℚ := 0.12
      let scatterDur : ℚ := 0.7
      let specs := sorted.mapIdx fun i photo =>
        { photoId := photo.id
          fromState := { toState photo with
            x := cx
            y := cy
            rotation := (if i % 2 = 0 then (1 : ℚ) else -1) * ((i : ℚ) * 3)
            opacity := 0
            scale := photo.scale * 0.9
            rotateY := 0 }
          toState := toState photo
          delay := gatherDur + (i : ℚ) * scatterStagger
          duration := scatterDur }
      let last : ℚ := gatherDur + ((sorted.length : ℚ) - 1) * scatterStagger + scatterDur
      { specs := specs, totalDuration := max last 1 }
  | AnimationEffect.flip =>
      let stagger : ℚ := 0.3
      let enterDur : ℚ := 0.6
      let specs := sorted.mapIdx fun i photo =>
        { photoId := photo.id
          fromState := { toState photo with
            opacity := 0
            scale := photo.scale * 0.9
            rotateY := 90 }
          toState := toState photo
          delay := (i : ℚ) * stagger
          duration := enterDur }
      let last : ℚ := ((sorted.length : ℚ) - 1) * stagger + enterDur
      { specs := specs, totalDuration := max last 1 }
  | AnimationEffect.fade =>
      let stagger : ℚ := 0.28
      let enterDur : ℚ := 0.7
      let specs := sorted.mapIdx fun i photo =>
        { photoId := photo.id
          fromState := { toState photo with
            opacity := 0
            scale := photo.scale * 0.7
            rotateY := 0 }
          toState := toState photo
          delay := (i : ℚ) * stagger
          duration := enterDur }
      let last : ℚ := ((sorted.length : ℚ) - 1) * stagger + enterDur
      { specs := specs, totalDuration := max last 1 }

/-- `easeOutBack` from `animationEffects.ts`. -/
def easeOutBack (t : ℚ) : ℚ :=
  let c1 : ℚ := 1.70158
  let c3 : ℚ := c1 + 1
  1 + c3 * (t - 1) ^ 3 + c1 * (t - 1) ^ 2

/-- `easeOutQuart` from `animationEffects.ts`. -/
def easeOutQuart (t : ℚ) : ℚ :=
  1 - (1 - t) ^ 4

/-- `lerp` from `animationEffects.ts`. -/
def lerp (a b t : ℚ) : ℚ :=
  a + (b - a) * t

/-- Line 183: `const easeFn = effect === "sequential" ? easeOutBack : easeOutQuart`. -/
def easeFnFor (effect : AnimationEffect) : ℚ → ℚ :=
  if effect = AnimationEffect.sequential then easeOutBack else easeOutQuart

/-- The body of the `plan.specs.map(spec => …)` lambda in `interpolateFrame`,
hoisted to a named function.  (On every plan that `buildEffectPlan` produces,
`spec.duration > 0`; ℚ's `x / 0 = 0` is only ever reached outside that domain,
where the `localT ≤ 0` branch fires.) -/
def interpolateSpec (photos : List Photo) (t : ℚ) (effect : AnimationEffect)
    (spec : PhotoEnterSpec) : PhotoAnimState :=
  match photos.find? (fun p => p.id == spec.photoId) with
  | none => spec.toState.withId spec.photoId
  | some _ =>
    let localT := (t - spec.delay) / spec.duration
    if localT ≤ 0 then
      spec.fromState.withId spec.photoId
    else if localT ≥ 1 then
      spec.toState.withId spec.photoId
    else
      let eased := easeFnFor effect (min localT 1)
      { id := spec.photoId
        x := lerp spec.fromState.x spec.toState.x eased
        y := lerp spec.fromState.y spec.toState.y eased
        rotation := lerp spec.fromState.rotation spec.toState.rotation eased
        opacity := lerp spec.fromState.opacity spec.toState.opacity eased
        scale := lerp spec.fromState.scale spec.toState.scale eased
        rotateY := lerp spec.fromState.rotateY spec.toState.rotateY eased }

/-- `interpolateFrame` from `animationEffects.ts`. -/
def interpolateFrame (plan : EffectPlan) (photos : List Photo) (t : ℚ)
    (effect : AnimationEffect) : List PhotoAnimState :=
  plan.specs.map (interpolateSpec photos t effect)

-- ─── Export orchestrator (`handleExport` in `src/unnamed/part_000`) ─────

/-- The frame-capture loop of `handleExport`:
`frameCount = Math.ceil(currentPlan.totalDuration * fps)` frames, the `i`-th
interpolated at `t = i / fps`.  The playback `speed` state is in scope in the
component but never read by the loop; it is kept as an (unused) argument so
that independence from it is statable.  A negative `frameCount` runs the JS
`for` loop zero times, which `Int.toNat` reproduces. -/
def handleExportFrames (plan : EffectPlan) (photos : List Photo)
    (effect : AnimationEffect) (fps : ℕ) (speed : ℚ) : List (List PhotoAnimState) :=
  let frameCount : ℤ := ⌈plan.totalDuration * (fps : ℚ)⌉
  (List.range frameCount.toNat).map fun i : ℕ =>
    interpolateFrame plan photos ((i : ℚ) / (fps : ℚ)) effect

-- ─── MP4 encoder setup (`src/unnamed/part_002`) ─────────────────────────

/-- `avcCodecForSize` from the video-export module. -/
def avcCodecForSize (w h : ℕ) : String :=
  let area := w * h
  if area ≤ 921600 then "avc1.42001f"
  else if area ≤ 2097152 then "avc1.420029"
  else if area ≤ 9437184 then "avc1.420033"
  else "avc1.420034"

/-- `const encW = rawW % 2 === 0 ? rawW : rawW - 1` (and likewise `encH`). -/
def evenDown (n : ℕ) : ℕ :=
  if n % 2 = 0 then n else n - 1

/-- The dimension/codec/support-check prefix of `encodeMP4`, up to the point
where encoding is committed.  `isConfigSupported` abstracts the
`VideoEncoder.isConfigSupported` browser capability query; the error string is
the one thrown when `supported` is false. -/
def encodeMP4Setup (rawW rawH : ℕ)
    (isConfigSupported : String → ℕ → ℕ → Bool) : Except String (String × ℕ × ℕ) :=
  let encW := evenDown rawW
  let encH := evenDown rawH
  let codec := avcCodecForSize encW encH
  if isConfigSupported codec encW encH then
    Except.ok (codec, encW, encH)
  else
    Except.error ("H.264 encoding is not supported at " ++ toString encW ++ "×"
      ++ toString encH ++ " on this device.")

-- ─── MP4 submission-loop backpressure (`src/unnamed/part_002`) ──────────

/-- Models the reads of `encoder.encodeQueueSize` made by
`while (encoder.encodeQueueSize > 3) await …`: `qs k` is the value returned by
the `k`-th read of the whole run, and the loop spins from read index `start`
until the first read showing at most 3 pending frames.  `hdrain` states that
the encoder always eventually drains (otherwise the JS loop never exits). -/
def waitForQueue (qs : ℕ → ℕ) (hdrain : ∀ n, ∃ k, n ≤ k ∧ qs k ≤ 3)
    (start : ℕ) : ℕ :=
  Nat.find (hdrain start)

/-- The read index at which frame `i` is submitted to the encoder: each frame
first runs the backpressure wait, starting one read past the previous frame's
submission read. -/
def submitReadIdx (qs : ℕ → ℕ) (hdrain : ∀ n, ∃ k, n ≤ k ∧ qs k ≤ 3) : ℕ → ℕ
  | 0 => waitForQueue qs hdrain 0
  | i + 1 => waitForQueue qs hdrain (submitReadIdx qs hdrain i + 1)

/-- The scenario oracle of C9: the queue reads 5 twice, then 3. -/
def qsSim : ℕ → ℕ := fun k => if k < 2 then 5 else 3

-- ─── Array-level view of `buildEffectPlan` (frame effects) ──────────────

/-- `buildEffectPlan` at the JS array level, with a minimal heap of arrays
(addresses are indices).  `const sorted = [...photos]` allocates a fresh array
(at address `heap.length`) holding a copy of the argument's elements, and
`.sort(…)` then mutates that fresh array in place; the plan is built from it.
Returns the plan together with the heap after the call. -/
def buildEffectPlanOnHeap (heap : List (List Photo)) (photosAddr : ℕ)
    (effect : AnimationEffect) (w h : ℚ) : EffectPlan × List (List Photo) :=
  let photos := heap.getD photosAddr []
  let copyAddr := heap.length
  let heap1 := heap ++ [photos]
  let heap2 := heap1.set copyAddr (sortByZIndex (heap1.getD copyAddr []))
  (buildEffectPlan photos effect w h, heap2)

-- ─── Concrete inputs used by witnesses and counterexamples ──────────────

/-- A concrete photo (zIndex 1). -/
def photoA : Photo :=
  { id := "a", url := "u-a", x := 10, y := 20, rotation := 30,
    zIndex := 1, scale := 1, width := none, height := none, timestamp := 0 }

/-- A concrete photo (zIndex 2). -/
def photoB : Photo :=
  { id := "b", url := "u-b", x := -40, y := 5, rotation := -12,
    zIndex := 2, scale := 2, width := some 800, height := some 1000, timestamp := 1 }

-- ─── Helper lemmas: easing functions ────────────────────────────────────

lemma easeOutQuart_nonneg {t : ℚ} (h0 : 0 ≤ t) (h1 : t ≤ 1) : 0 ≤ easeOutQuart t := by
  unfold easeOutQuart
  have h4 : (1 - t) ^ 4 ≤ 1 := by
    calc (1 - t) ^ 4 ≤ 1 ^ 4 := pow_le_pow_left (by linarith) (by linarith) 4
    _ = 1 := one_pow 4
  linarith

lemma easeOutQuart_le_one {t : ℚ} : easeOutQuart t ≤ 1 := by
  unfold easeOutQuart
  have : 0 ≤ (1 - t) ^ 4 := by positivity
  linarith

lemma easeOutQuart_mono {t₁ t₂ : ℚ} (h12 : t₁ ≤ t₂) (h1 : t₂ ≤ 1) :
    easeOutQuart t₁ ≤ easeOutQuart t₂ := by
  unfold easeOutQuart
  have : (1 - t₂) ^ 4 ≤ (1 - t₁) ^ 4 := pow_le_pow_left (by linarith) (by linarith) 4
  linarith

lemma easeOutBack_nonneg {t : ℚ} (h0 : 0 ≤ t) (h1 : t ≤ 1) : 0 ≤ easeOutBack t := by
  unfold easeOutBack
  nlinarith [mul_nonneg h0 (sq_nonneg (1 - t)), mul_nonneg h0 (show (0:ℚ) ≤ 2 - t by linarith)]

lemma easeOutBack_le {t : ℚ} (h0 : 0 ≤ t) (h1 : t ≤ 1) : easeOutBack t ≤ 9/8 := by
  unfold easeOutBack
  nlinarith [mul_nonneg (sq_nonneg ((270158:ℚ)/100000 * (1 - t) - 2 * ((170158:ℚ)/100000) / 3))
    (show (0:ℚ) ≤ (270158:ℚ)/100000 * (1 - t) + ((170158:ℚ)/100000) / 3 by linarith)]

lemma easeOutBack_overshoots : (1 : ℚ) < easeOutBack (7/10) := by
  norm_num [easeOutBack]

lemma easeOutBack_one : easeOutBack 1 = 1 := by
  norm_num [easeOutBack]

lemma lerp_zero_one (e : ℚ) : lerp 0 1 e = e := by
  simp [lerp]

-- ─── Helper lemmas: `interpolateSpec` branch behaviour ──────────────────

lemma interpolateSpec_absent {photos : List Photo} {spec : PhotoEnterSpec}
    (t : ℚ) (effect : AnimationEffect)
    (hfind : photos.find? (fun p => p.id == spec.photoId) = none) :
    interpolateSpec photos t effect spec = spec.toState.withId spec.photoId := by
  unfold interpolateSpec
  rw [hfind]

lemma interpolateSpec_before {photos : List Photo} {spec : PhotoEnterSpec}
    {t : ℚ} (effect : AnimationEffect) {p : Photo}
    (hfind : photos.find? (fun p => p.id == spec.photoId) = some p)
    (hdur : 0 < spec.duration) (ht : t ≤ spec.delay) :
    interpolateSpec photos t effect spec = spec.fromState.withId spec.photoId := by
  unfold interpolateSpec
  rw [hfind]
  have hloc : (t - spec.delay) / spec.duration ≤ 0 :=
    div_nonpos_of_nonpos_of_nonneg (by linarith) (le_of_lt hdur)
  simp [hloc]

lemma interpolateSpec_after {photos : List Photo} {spec : PhotoEnterSpec}
    {t : ℚ} (effect : AnimationEffect) {p : Photo}
    (hfind : photos.find? (fun p => p.id == spec.photoId) = some p)
    (hdur : 0 < spec.duration) (ht : spec.delay + spec.duration ≤ t) :
    interpolateSpec photos t effect spec = spec.toState.withId spec.photoId := by
  unfold interpolateSpec
  rw [hfind]
  have hloc : (1 : ℚ) ≤ (t - spec.delay) / spec.duration :=
    (one_le_div hdur).mpr (by linarith)
  have hpos : ¬((t - spec.delay) / spec.duration ≤ 0) := by
    push_neg
    linarith
  simp [hpos, hloc]

lemma interpolateSpec_mid {photos : List Photo} {spec : PhotoEnterSpec}
    {t : ℚ} (effect : AnimationEffect) {p : Photo}
    (hfind : photos.find? (fun p => p.id == spec.photoId) = some p)
    (hdur : 0 < spec.duration)
    (h1 : spec.delay < t) (h2 : t < spec.delay + spec.duration) :
    interpolateSpec photos t effect spec =
      { id := spec.photoId
        x := lerp spec.fromState.x spec.toState.x
          (easeFnFor effect ((t - spec.delay) / spec.duration))
        y := lerp spec.fromState.y spec.toState.y
          (easeFnFor effect ((t - spec.delay) / spec.duration))
        rotation := lerp spec.fromState.rotation spec.toState.rotation
          (easeFnFor effect ((t - spec.delay) / spec.duration))
        opacity := lerp spec.fromState.opacity spec.toState.opacity
          (easeFnFor effect ((t - spec.delay) / spec.duration))
        scale := lerp spec.fromState.scale spec.toState.scale
          (easeFnFor effect ((t - spec.delay) / spec.duration))
        rotateY := lerp spec.fromState.rotateY spec.toState.rotateY
          (easeFnFor effect ((t - spec.delay) / spec.duration)) } := by
  unfold interpolateSpec
  rw [hfind]
  have hpos : ¬((t - spec.delay) / spec.duration ≤ 0) := by
    push_neg
    exact div_pos (by linarith) hdur
  have hlt : (t - spec.delay) / spec.duration < 1 := (div_lt_one hdur).mpr (by linarith)
  have hnot : ¬((1 : ℚ) ≤ (t - spec.delay) / spec.duration) := not_le.mpr hlt
  simp only [hpos, if_false, ge_iff_le, hnot, min_eq_left (le_of_lt hlt)]

lemma interpolateFrame_getElem? (plan : EffectPlan) (photos : List Photo)
    (t : ℚ) (effect : AnimationEffect) {i : ℕ} (hi : i < plan.specs.length) :
    (interpolateFrame plan photos t effect)[i]? =
      some (interpolateSpec photos t effect plan.specs[i]) := by
  unfold interpolateFrame
  rw [List.getElem?_map, List.getElem?_eq_getElem hi]
  rfl

-- ─── Helper lemmas: structure of built plans ────────────────────────────

lemma buildEffectPlan_spec_mem {photos : List Photo} {effect : AnimationEffect}
    {w h : ℚ} {spec : PhotoEnterSpec}
    (hs : spec ∈ (buildEffectPlan photos effect w h).specs) :
    spec.fromState.opacity = 0 ∧ spec.toState.opacity = 1 ∧
    0 < spec.duration ∧ 0 ≤ spec.delay ∧
    spec.delay + spec.duration ≤ (buildEffectPlan photos effect w h).totalDuration := by
  cases effect
  case sequential =>
    simp only [buildEffectPlan] at hs ⊢
    rw [List.mem_mapIdx] at hs
    obtain ⟨i, hi, rfl⟩ := hs
    have hn : (i : ℚ) ≤ ((sortByZIndex photos).length : ℚ) - 1 := by
      have : (i : ℚ) + 1 ≤ ((sortByZIndex photos).length : ℚ) := by
        exact_mod_cast Nat.succ_le_of_lt hi
      linarith
    refine ⟨by simp [defaultFrom], by simp [toState], by norm_num, by positivity, ?_⟩
    rw [if_pos (Nat.pos_of_ne_zero (by omega))]
    nlinarith
  case shuffle =>
    simp only [buildEffectPlan] at hs ⊢
    rw [List.mem_mapIdx] at hs
    obtain ⟨i, hi, rfl⟩ := hs
    have hn : (i : ℚ) ≤ ((sortByZIndex photos).length : ℚ) - 1 := by
      have : (i : ℚ) + 1 ≤ ((sortByZIndex photos).length : ℚ) := by
        exact_mod_cast Nat.succ_le_of_lt hi
      linarith
    refine ⟨by simp [toState], by simp [toState], by norm_num, by positivity, ?_⟩
    refine le_trans ?_ (le_max_left _ _)
    nlinarith
  case flip =>
    simp only [buildEffectPlan] at hs ⊢
    rw [List.mem_mapIdx] at hs
    obtain ⟨i, hi, rfl⟩ := hs
    have hn : (i : ℚ) ≤ ((sortByZIndex photos).length : ℚ) - 1 := by
      have : (i : ℚ) + 1 ≤ ((sortByZIndex photos).length : ℚ) := by
        exact_mod_cast Nat.succ_le_of_lt hi
      linarith
    refine ⟨by simp [toState], by simp [toState], by norm_num, by positivity, ?_⟩
    refine le_trans ?_ (le_max_left _ _)
    nlinarith
  case fade =>
    simp only [buildEffectPlan] at hs ⊢
    rw [List.mem_mapIdx] at hs
    obtain ⟨i, hi, rfl⟩ := hs
    have hn : (i : ℚ) ≤ ((sortByZIndex photos).length : ℚ) - 1 := by
      have : (i : ℚ) + 1 ≤ ((sortByZIndex photos).length : ℚ) := by
        exact_mod_cast Nat.succ_le_of_lt hi
      linarith
    refine ⟨by simp [toState], by simp [toState], by norm_num, by positivity, ?_⟩
    refine le_trans ?_ (le_max_left _ _)
    nlinarith

-- ─── Helper lemmas: uniqueness of the sorted order (C5) ─────────────────

lemma sorted_nodup_eq :
    ∀ {l₁ l₂ : List Photo}, l₁.Perm l₂ →
      l₁.Pairwise (fun a b => a.zIndex ≤ b.zIndex) →
      l₂.Pairwise (fun a b => a.zIndex ≤ b.zIndex) →
      (l₁.map Photo.zIndex).Nodup → l₁ = l₂ := by
  intro l₁
  induction l₁ with
  | nil =>
    intro l₂ hp _ _ _
    exact (List.Perm.eq_nil hp.symm).symm
  | cons a t₁ ih =>
    intro l₂ hp hs₁ hs₂ hnd
    cases l₂ with
    | nil => simpa using List.Perm.eq_nil hp
    | cons b t₂ =>
      rcases List.pairwise_cons.mp hs₁ with ⟨ha_le, hs₁t⟩
      rcases List.pairwise_cons.mp hs₂ with ⟨hb_le, hs₂t⟩
      have ha₂ : a ∈ b :: t₂ := hp.mem_iff.mp (List.mem_cons_self a t₁)
      have hb₁ : b ∈ a :: t₁ := hp.symm.mem_iff.mp (List.mem_cons_self b t₂)
      have hndc : a.zIndex ∉ t₁.map Photo.zIndex ∧ (t₁.map Photo.zIndex).Nodup := by
        rw [List.map_cons, List.nodup_cons] at hnd
        exact hnd
      have hab : a = b := by
        rcases List.mem_cons.mp hb₁ with h | hbt₁
        · exact h.symm
        rcases List.mem_cons.mp ha₂ with h | hat₂
        · exact h
        exfalso
        have hz : a.zIndex = b.zIndex :=
          le_antisymm (ha_le b hbt₁) (hb_le a hat₂)
        exact hndc.1 (hz ▸ List.mem_map_of_mem Photo.zIndex hbt₁)
      subst hab
      have ht : t₁ = t₂ := ih hp.cons_inv hs₁t hs₂t hndc.2
      rw [ht]

lemma sortByZIndex_sorted (l : List Photo) :
    (sortByZIndex l).Pairwise (fun a b => a.zIndex ≤ b.zIndex) := by
  have h := @List.sorted_mergeSort Photo (fun a b : Photo => decide (a.zIndex ≤ b.zIndex))
    (by
      intro a b c hab hbc
      simp only [decide_eq_true_eq] at *
      exact le_trans hab hbc)
    (by
      intro a b
      simp only [Bool.or_eq_true, decide_eq_true_eq]
      exact le_total _ _)
    l
  exact h.imp (fun hab => by simpa using hab)

lemma sortByZIndex_eq_of_perm {l₁ l₂ : List Photo} (hp : l₁.Perm l₂)
    (hnd : (l₁.map Photo.zIndex).Nodup) : sortByZIndex l₁ = sortByZIndex l₂ := by
  have hperm : (sortByZIndex l₁).Perm (sortByZIndex l₂) :=
    (List.mergeSort_perm l₁ _).trans (hp.trans (List.mergeSort_perm l₂ _).symm)
  have hnd₁ : ((sortByZIndex l₁).map Photo.zIndex).Nodup :=
    (((List.mergeSort_perm l₁ _).map Photo.zIndex).nodup_iff).mpr hnd
  exact sorted_nodup_eq hperm (sortByZIndex_sorted l₁) (sortByZIndex_sorted l₂) hnd₁

/-- `qsSim` eventually drains below the threshold from any point. -/
lemma qsSim_drains : ∀ n, ∃ k, n ≤ k ∧ qsSim k ≤ 3 := by
  intro n
  refine ⟨n + 2, by omega, ?_⟩
  unfold qsSim
  rw [if_neg (by omega)]

-- ─── Claim theorems ─────────────────────────────────────────────────────

/-- C1: the claim asserts `totalDuration ≥ 1` for every nonempty photo list
and every effect, with `totalDuration = max(computed, 1.0)` for a single
photo.  The `sequential` branch of `buildEffectPlan` applies no such floor:
for one photo it returns `(1 − 1) × 0.35 + 0.8 = 0.8 < 1`, although the
`shuffle`, `flip` and `fade` branches all clamp with `Math.max(last, 1)`.
This theorem evaluates the code at the failing input. -/
theorem buildEffectPlan_sequential_below_floor :
    (buildEffectPlan [photoA] AnimationEffect.sequential 800 600).totalDuration = 0.8 ∧
    (buildEffectPlan [photoA] AnimationEffect.sequential 800 600).totalDuration < 1 := by
  have h : (buildEffectPlan [photoA] AnimationEffect.sequential 800 600).totalDuration = 0.8 := by
    simp [buildEffectPlan, sortByZIndex]
  exact ⟨h, by rw [h]; norm_num⟩

/-- C4: `interpolateFrame` pairs `easeOutBack` with the `sequential` effect
and `easeOutQuart` with `shuffle`, `flip` and `fade`; `easeOutQuart` is
monotone non-decreasing up to 1, while `easeOutBack` exceeds 1 somewhere in
(0, 1) and returns to 1 at t = 1 (overshoot-then-settle). -/
theorem easing_pairing_and_shape :
    easeFnFor AnimationEffect.sequential = easeOutBack ∧
    easeFnFor AnimationEffect.shuffle = easeOutQuart ∧
    easeFnFor AnimationEffect.flip = easeOutQuart ∧
    easeFnFor AnimationEffect.fade = easeOutQuart ∧
    (∀ t₁ t₂ : ℚ, t₁ ≤ t₂ → t₂ ≤ 1 → easeOutQuart t₁ ≤ easeOutQuart t₂) ∧
    (∃ t : ℚ, 0 < t ∧ t < 1 ∧ 1 < easeOutBack t) ∧
    easeOutBack 1 = 1 := by
  refine ⟨rfl, rfl, rfl, rfl, ?_, ⟨7/10, by norm_num, by norm_num, easeOutBack_overshoots⟩,
    easeOutBack_one⟩
  intro t₁ t₂ h12 h1
  exact easeOutQuart_mono h12 h1

/-- C4 witness: the monotonicity component applied at 1/4 ≤ 1/2. -/
theorem easing_pairing_and_shape_witness :
    easeOutQuart (1/4) ≤ easeOutQuart (1/2) :=
  easing_pairing_and_shape.2.2.2.2.1 (1/4) (1/2) (by norm_num) (by norm_num)

/-- C5: `buildEffectPlan` is deterministic.  Strengthened form: the plan
depends only on the multiset of photos when `zIndex` values are pairwise
distinct (the stable sort's output is then unique), so in particular two
calls with identical `(photos, effect, viewport)` inputs return identical
plans. -/
theorem buildEffectPlan_deterministic (photos₁ photos₂ : List Photo)
    (effect : AnimationEffect) (w h : ℚ)
    (hperm : photos₁.Perm photos₂) (hnd : (photos₁.map Photo.zIndex).Nodup) :
    buildEffectPlan photos₁ effect w h = buildEffectPlan photos₂ effect w h := by
  have hs := sortByZIndex_eq_of_perm hperm hnd
  cases effect <;> simp only [buildEffectPlan, hs]

/-- C5 witness: two permuted two-photo lists with distinct zIndex produce the
same plan. -/
theorem buildEffectPlan_deterministic_witness :
    buildEffectPlan [photoA, photoB] AnimationEffect.fade 800 600 =
      buildEffectPlan [photoB, photoA] AnimationEffect.fade 800 600 :=
  buildEffectPlan_deterministic [photoA, photoB] [photoB, photoA]
    AnimationEffect.fade 800 600 (List.Perm.swap photoB photoA [])
    (by simp [photoA, photoB])

/-- C7: a spec whose `photoId` does not occur in the photo list passed to
`interpolateFrame` yields that spec's `to` state (with the spec's `photoId`
as `id`), for every time and effect. -/
theorem interpolateFrame_missing_photo (plan : EffectPlan) (photos : List Photo)
    (t : ℚ) (effect : AnimationEffect) (i : ℕ) (hi : i < plan.specs.length)
    (hmiss : plan.specs[i].photoId ∉ photos.map Photo.id) :
    (interpolateFrame plan photos t effect)[i]? =
      some (plan.specs[i].toState.withId plan.specs[i].photoId) := by
  rw [interpolateFrame_getElem? plan photos t effect hi]
  have hfind : photos.find? (fun p => p.id == plan.specs[i].photoId) = none := by
    rw [List.find?_eq_none]
    intro x hx hbeq
    rw [beq_iff_eq] at hbeq
    exact hmiss (hbeq ▸ List.mem_map_of_mem Photo.id hx)
  rw [interpolateSpec_absent t effect hfind]

/-- C7 witness: a plan built over `photoA` interpolated against a photo list
containing only `photoB` returns `photoA`'s resting state under id "a". -/
theorem interpolateFrame_missing_photo_witness :
    (interpolateFrame (buildEffectPlan [photoA] AnimationEffect.fade 800 600) [photoB] 2
      AnimationEffect.fade)[0]? =
      some { id := "a", x := 10, y := 20, rotation := 30, opacity := 1, scale := 1,
             rotateY := 0 } := by
  have h := interpolateFrame_missing_photo
    (buildEffectPlan [photoA] AnimationEffect.fade 800 600) [photoB] 2
    AnimationEffect.fade 0
    (by simp [buildEffectPlan, sortByZIndex])
    (by simp [buildEffectPlan, sortByZIndex, photoA, photoB])
  rw [h]
  simp [buildEffectPlan, sortByZIndex, toState, AnimState.withId, photoA]

/-- C3: `interpolateFrame` is total and clamps per spec: on a plan built by
`buildEffectPlan`, for a spec whose photo is present, `t ≤ delay` yields the
spec's `from` state and `t ≥ delay + duration` yields its `to` state;
consequently `t = 0` yields the `from` state and `t = totalDuration` yields
the `to` state (the built plan satisfies `delay ≥ 0`, `duration > 0` and
`delay + duration ≤ totalDuration`). -/
theorem interpolateFrame_clamps (photos photos₂ : List Photo)
    (effect effect₂ : AnimationEffect) (w h t : ℚ) (i : ℕ)
    (hi : i < (buildEffectPlan photos effect w h).specs.length)
    (hpres : (buildEffectPlan photos effect w h).specs[i].photoId ∈ photos₂.map Photo.id) :
    (t ≤ (buildEffectPlan photos effect w h).specs[i].delay →
      (interpolateFrame (buildEffectPlan photos effect w h) photos₂ t effect₂)[i]? =
        some ((buildEffectPlan photos effect w h).specs[i].fromState.withId
          (buildEffectPlan photos effect w h).specs[i].photoId)) ∧
    ((buildEffectPlan photos effect w h).specs[i].delay +
        (buildEffectPlan photos effect w h).specs[i].duration ≤ t →
      (interpolateFrame (buildEffectPlan photos effect w h) photos₂ t effect₂)[i]? =
        some ((buildEffectPlan photos effect w h).specs[i].toState.withId
          (buildEffectPlan photos effect w h).specs[i].photoId)) ∧
    ((interpolateFrame (buildEffectPlan photos effect w h) photos₂ 0 effect₂)[i]? =
      some ((buildEffectPlan photos effect w h).specs[i].fromState.withId
        (buildEffectPlan photos effect w h).specs[i].photoId)) ∧
    ((interpolateFrame (buildEffectPlan photos effect w h) photos₂
        (buildEffectPlan photos effect w h).totalDuration effect₂)[i]? =
      some ((buildEffectPlan photos effect w h).specs[i].toState.withId
        (buildEffectPlan photos effect w h).specs[i].photoId)) := by
  obtain ⟨-, -, hdur, hdel, hsum⟩ := buildEffectPlan_spec_mem (List.getElem_mem hi)
  have hsome : (photos₂.find?
      (fun q => q.id == (buildEffectPlan photos effect w h).specs[i].photoId)).isSome := by
    rw [List.find?_isSome]
    obtain ⟨x, hx, hxid⟩ := List.mem_map.mp hpres
    exact ⟨x, hx, by rw [beq_iff_eq]; exact hxid⟩
  obtain ⟨p, hp⟩ := Option.isSome_iff_exists.mp hsome
  refine ⟨?_, ?_, ?_, ?_⟩
  · intro ht
    rw [interpolateFrame_getElem? _ _ _ _ hi, interpolateSpec_before effect₂ hp hdur ht]
  · intro ht
    rw [interpolateFrame_getElem? _ _ _ _ hi, interpolateSpec_after effect₂ hp hdur ht]
  · rw [interpolateFrame_getElem? _ _ _ _ hi, interpolateSpec_before effect₂ hp hdur hdel]
  · rw [interpolateFrame_getElem? _ _ _ _ hi, interpolateSpec_after effect₂ hp hdur hsum]

/-- C3 witness: the `t = 0` component on a one-photo `flip` plan: the state
at time 0 is the spec's `from` state (hidden, scaled 0.9, rotateY 90). -/
theorem interpolateFrame_clamps_witness :
    (interpolateFrame (buildEffectPlan [photoA] AnimationEffect.flip 800 600) [photoA] 0
      AnimationEffect.flip)[0]? =
      some { id := "a", x := 10, y := 20, rotation := 30, opacity := 0, scale := 0.9,
             rotateY := 90 } := by
  have h := (interpolateFrame_clamps [photoA] [photoA] AnimationEffect.flip
    AnimationEffect.flip 800 600 0 0
    (by simp [buildEffectPlan, sortByZIndex])
    (by simp [buildEffectPlan, sortByZIndex, photoA])).2.2.1
  rw [h]
  simp [buildEffectPlan, sortByZIndex, toState, AnimState.withId, photoA]

/-- C2 counterexample: on the sequential plan for one photo, at `t = 0.56`
(local progress 0.7) the returned opacity is `easeOutBack 0.7 > 1`, so the
claimed invariant `opacity ∈ [0, 1]` fails as stated. -/
theorem interpolateFrame_opacity_exceeds_one :
    (interpolateFrame (buildEffectPlan [photoA] AnimationEffect.sequential 800 600) [photoA]
      0.56 AnimationEffect.sequential).map PhotoAnimState.opacity = [easeOutBack (7/10)] ∧
    1 < easeOutBack (7/10) := by
  constructor
  · simp [buildEffectPlan, sortByZIndex, interpolateFrame, interpolateSpec, easeFnFor,
      List.find?, lerp, toState, defaultFrom, AnimState.withId, photoA]
    norm_num
  · exact easeOutBack_overshoots

/-- C2 amended: on every plan built by `buildEffectPlan`, for every photo
list and every time, each returned opacity lies in `[0, 9/8]`; when the
effect passed to `interpolateFrame` is not `sequential` (so the easing is
`easeOutQuart`), it lies in `[0, 1]`.  (`easeOutBack`'s overshoot is at most
`4·c1³/(27·c3²) ≈ 0.1`, hence the 9/8 bound.) -/
theorem interpolateFrame_opacity_bounds (photos photos₂ : List Photo)
    (effect effect₂ : AnimationEffect) (w h t : ℚ) (s : PhotoAnimState)
    (hs : s ∈ interpolateFrame (buildEffectPlan photos effect w h) photos₂ t effect₂) :
    0 ≤ s.opacity ∧ s.opacity ≤ 9/8 ∧
    (effect₂ ≠ AnimationEffect.sequential → s.opacity ≤ 1) := by
  unfold interpolateFrame at hs
  rw [List.mem_map] at hs
  obtain ⟨spec, hspec, rfl⟩ := hs
  obtain ⟨hfrom0, hto1, hdur, -, -⟩ := buildEffectPlan_spec_mem hspec
  cases hfind : photos₂.find? (fun p => p.id == spec.photoId) with
  | none =>
    rw [interpolateSpec_absent t effect₂ hfind]
    refine ⟨?_, ?_, fun _ => ?_⟩ <;> simp [AnimState.withId, hto1]
    norm_num
  | some p =>
    by_cases hta : t ≤ spec.delay
    · rw [interpolateSpec_before effect₂ hfind hdur hta]
      refine ⟨?_, ?_, fun _ => ?_⟩ <;> simp [AnimState.withId, hfrom0]
      norm_num
    · by_cases htb : spec.delay + spec.duration ≤ t
      · rw [interpolateSpec_after effect₂ hfind hdur htb]
        refine ⟨?_, ?_, fun _ => ?_⟩ <;> simp [AnimState.withId, hto1]
        norm_num
      · push_neg at hta htb
        rw [interpolateSpec_mid effect₂ hfind hdur hta htb]
        have harg0 : 0 < (t - spec.delay) / spec.duration :=
          div_pos (by linarith) hdur
        have harg1 : (t - spec.delay) / spec.duration < 1 :=
          (div_lt_one hdur).mpr (by linarith)
        simp only [hfrom0, hto1, lerp_zero_one]
        by_cases hseq : effect₂ = AnimationEffect.sequential
        · subst hseq
          have hback : easeFnFor AnimationEffect.sequential = easeOutBack := rfl
          rw [hback]
          exact ⟨easeOutBack_nonneg harg0.le harg1.le,
            easeOutBack_le harg0.le harg1.le,
            fun hne => absurd rfl hne⟩
        · have hquart : easeFnFor effect₂ = easeOutQuart := by
            unfold easeFnFor
            rw [if_neg hseq]
          rw [hquart]
          exact ⟨easeOutQuart_nonneg harg0.le harg1.le,
            le_trans easeOutQuart_le_one (by norm_num),
            fun _ => easeOutQuart_le_one⟩

/-- C2 amended witness: a state drawn from a one-photo `fade` plan at t = 0
has opacity within the bounds. -/
theorem interpolateFrame_opacity_bounds_witness :
    0 ≤ PhotoAnimState.opacity
      { id := "a", x := 10, y := 20, rotation := 30, opacity := 0, scale := 0.7,
        rotateY := 0 } ∧
    PhotoAnimState.opacity
      { id := "a", x := 10, y := 20, rotation := 30, opacity := 0, scale := 0.7,
        rotateY := 0 } ≤ 9/8 ∧
    (AnimationEffect.fade ≠ AnimationEffect.sequential →
      PhotoAnimState.opacity
        { id := "a", x := 10, y := 20, rotation := 30, opacity := 0, scale := 0.7,
          rotateY := 0 } ≤ 1) := by
  refine interpolateFrame_opacity_bounds [photoA] [photoA] AnimationEffect.fade
    AnimationEffect.fade 800 600 0 _ ?_
  have hres : interpolateFrame (buildEffectPlan [photoA] AnimationEffect.fade 800 600)
      [photoA] 0 AnimationEffect.fade =
      [{ id := "a", x := 10, y := 20, rotation := 30, opacity := 0, scale := 0.7,
         rotateY := 0 }] := by
    simp [buildEffectPlan, sortByZIndex, interpolateFrame, interpolateSpec, List.find?,
      toState, AnimState.withId, photoA]
  rw [hres]
  exact List.mem_singleton.mpr rfl

/-- C6: the export loop captures exactly `ceil(totalDuration × fps)` frames,
the `i`-th interpolated at `t = i / fps`, and the result does not depend on
the playback speed. -/
theorem handleExport_frame_sampling (plan : EffectPlan) (photos : List Photo)
    (effect : AnimationEffect) (fps : ℕ) (speed : ℚ)
    (htd : 0 ≤ plan.totalDuration) :
    ((handleExportFrames plan photos effect fps speed).length : ℤ) =
      ⌈plan.totalDuration * (fps : ℚ)⌉ ∧
    (∀ i : ℕ, i < (handleExportFrames plan photos effect fps speed).length →
      (handleExportFrames plan photos effect fps speed)[i]? =
        some (interpolateFrame plan photos ((i : ℚ) / (fps : ℚ)) effect)) ∧
    (∀ speed₂ : ℚ, handleExportFrames plan photos effect fps speed =
      handleExportFrames plan photos effect fps speed₂) := by
  refine ⟨?_, ?_, fun _ => rfl⟩
  · unfold handleExportFrames
    rw [List.length_map, List.length_range]
    exact Int.toNat_of_nonneg (Int.ceil_nonneg (mul_nonneg htd (by positivity)))
  · intro i hilen
    unfold handleExportFrames at hilen ⊢
    rw [List.length_map, List.length_range] at hilen
    rw [List.getElem?_map, List.getElem?_range hilen]
    rfl

/-- C6 witness: a one-photo `flip` plan has `totalDuration = 1`, so at
24 fps the export captures 24 frames. -/
theorem handleExport_frame_sampling_witness :
    ((handleExportFrames (buildEffectPlan [photoA] AnimationEffect.flip 800 600) [photoA]
      AnimationEffect.flip 24 1).length : ℤ) =
      ⌈(buildEffectPlan [photoA] AnimationEffect.flip 800 600).totalDuration * ((24 : ℕ) : ℚ)⌉ :=
  (handleExport_frame_sampling (buildEffectPlan [photoA] AnimationEffect.flip 800 600)
    [photoA] AnimationEffect.flip 24 1
    (by simp [buildEffectPlan, sortByZIndex])).1

/-- C8: `encodeMP4` rounds each dimension down to the greatest even value,
selects the codec via `avcCodecForSize` (returning the highest-level profile
`avc1.420034` whenever the pixel area exceeds 9437184), and only proceeds
when the `isConfigSupported` check passes, otherwise failing with the
resolution-unsupported error. -/
theorem encodeMP4_setup_spec (rawW rawH : ℕ) (sup : String → ℕ → ℕ → Bool) :
    evenDown rawW % 2 = 0 ∧ evenDown rawW ≤ rawW ∧
    (∀ k : ℕ, k % 2 = 0 → k ≤ rawW → k ≤ evenDown rawW) ∧
    (9437184 < evenDown rawW * evenDown rawH →
      avcCodecForSize (evenDown rawW) (evenDown rawH) = "avc1.420034") ∧
    (sup (avcCodecForSize (evenDown rawW) (evenDown rawH)) (evenDown rawW)
        (evenDown rawH) = true →
      encodeMP4Setup rawW rawH sup =
        Except.ok (avcCodecForSize (evenDown rawW) (evenDown rawH), evenDown rawW,
          evenDown rawH)) ∧
    (sup (avcCodecForSize (evenDown rawW) (evenDown rawH)) (evenDown rawW)
        (evenDown rawH) = false →
      encodeMP4Setup rawW rawH sup =
        Except.error ("H.264 encoding is not supported at " ++ toString (evenDown rawW)
          ++ "×" ++ toString (evenDown rawH) ++ " on this device.")) := by
  refine ⟨?_, ?_, ?_, ?_, ?_, ?_⟩
  · unfold evenDown
    split
    · assumption
    · omega
  · unfold evenDown
    split <;> omega
  · intro k hk hkle
    unfold evenDown
    split
    · omega
    · omega
  · intro harea
    unfold avcCodecForSize
    have h1 : ¬(evenDown rawW * evenDown rawH ≤ 921600) := by omega
    have h2 : ¬(evenDown rawW * evenDown rawH ≤ 2097152) := by omega
    have h3 : ¬(evenDown rawW * evenDown rawH ≤ 9437184) := by omega
    simp only [h1, h2, h3, if_false]
  · intro hsup
    simp only [encodeMP4Setup]
    rw [hsup]
    rfl
  · intro hsup
    simp only [encodeMP4Setup]
    rw [hsup]
    rfl

/-- C8 witness: raw 3841×2161 rounds down to 3840×2160 (area 8294400, third
tier) and, with a support oracle answering yes, setup returns that codec and
size. -/
theorem encodeMP4_setup_spec_witness :
    evenDown 3841 % 2 = 0 ∧
    avcCodecForSize (evenDown 4001) (evenDown 2400) = "avc1.420034" ∧
    encodeMP4Setup 3841 2161 (fun _ _ _ => true) =
      Except.ok ("avc1.420033", 3840, 2160) := by
  refine ⟨(encodeMP4_setup_spec 3841 2161 (fun _ _ _ => true)).1, ?_, ?_⟩
  · have h := (encodeMP4_setup_spec 4001 2400 (fun _ _ _ => true)).2.2.2.1
    have harea : 9437184 < evenDown 4001 * evenDown 2400 := by decide
    exact h harea
  · have h := (encodeMP4_setup_spec 3841 2161 (fun _ _ _ => true)).2.2.2.2.1 rfl
    rw [h]
    rfl

/-- C9: in the submission loop, a frame is only ever submitted at a read
showing at most 3 pending frames; every read from the start of a frame's
wait up to (but excluding) its submission read showed more than 3, i.e. the
loop polls while the queue exceeds the threshold. -/
theorem encodeMP4_backpressure (qs : ℕ → ℕ)
    (hdrain : ∀ n, ∃ k, n ≤ k ∧ qs k ≤ 3) :
    (∀ i, qs (submitReadIdx qs hdrain i) ≤ 3) ∧
    (∀ j, j < submitReadIdx qs hdrain 0 → 3 < qs j) ∧
    (∀ i j, submitReadIdx qs hdrain i < j → j < submitReadIdx qs hdrain (i + 1) →
      3 < qs j) := by
  refine ⟨?_, ?_, ?_⟩
  · intro i
    cases i with
    | zero => exact (Nat.find_spec (hdrain 0)).2
    | succ n => exact (Nat.find_spec (hdrain (submitReadIdx qs hdrain n + 1))).2
  · intro j hj
    simp only [submitReadIdx, waitForQueue] at hj
    have h := Nat.find_min (hdrain 0) hj
    push_neg at h
    exact h (Nat.zero_le j)
  · intro i j h1 h2
    simp only [submitReadIdx, waitForQueue] at h2
    have h := Nat.find_min (hdrain (submitReadIdx qs hdrain i + 1)) h2
    push_neg at h
    exact h (by omega)
/-- C9 witness: with the queue simulated at 5 (threshold 3), the first frame
is submitted only at read index 2, the first read at which the queue has
drained to 3; the reads before it (values 5 > 3) were waited through. -/
theorem encodeMP4_backpressure_witness :
    submitReadIdx qsSim qsSim_drains 0 = 2 ∧
    qsSim (submitReadIdx qsSim qsSim_drains 0) ≤ 3 ∧
    3 < qsSim 0 ∧ 3 < qsSim 1 := by
  have hfind : submitReadIdx qsSim qsSim_drains 0 = 2 := by
    show waitForQueue qsSim qsSim_drains 0 = 2
    unfold waitForQueue
    rw [Nat.find_eq_iff]
    refine ⟨⟨by omega, by unfold qsSim; rw [if_neg (by omega)]⟩, ?_⟩
    intro m hm
    rw [not_and]
    intro _
    unfold qsSim
    rw [if_pos hm]
    omega
  have h := encodeMP4_backpressure qsSim qsSim_drains
  refine ⟨hfind, h.1 0, ?_, ?_⟩
  · exact h.2.1 0 (by rw [hfind]; omega)
  · exact h.2.1 1 (by rw [hfind]; omega)

/-- C10: at the array level, `buildEffectPlan` never mutates its `photos`
argument: the `[...photos]` spread allocates a fresh array and `.sort()`
mutates only that copy, so after the call the array at the caller's address
is unchanged, and the returned plan is the one computed from its (unchanged)
contents. -/
theorem buildEffectPlan_no_mutation (heap : List (List Photo)) (photosAddr : ℕ)
    (effect : AnimationEffect) (w h : ℚ) (haddr : photosAddr < heap.length) :
    (buildEffectPlanOnHeap heap photosAddr effect w h).2.getD photosAddr [] =
      heap.getD photosAddr [] ∧
    (buildEffectPlanOnHeap heap photosAddr effect w h).1 =
      buildEffectPlan (heap.getD photosAddr []) effect w h := by
  constructor
  · simp only [buildEffectPlanOnHeap]
    rw [List.getD_eq_getElem?_getD, List.getElem?_set_ne (by omega),
      List.getElem?_append, if_pos haddr, ← List.getD_eq_getElem?_getD]
  · rfl

/-- C10 witness: a heap holding one two-photo array at address 0 is unchanged
at that address by the call. -/
theorem buildEffectPlan_no_mutation_witness :
    (buildEffectPlanOnHeap [[photoB, photoA]] 0 AnimationEffect.shuffle 800 600).2.getD 0 [] =
      [photoB, photoA] := by
  have h := (buildEffectPlan_no_mutation [[photoB, photoA]] 0 AnimationEffect.shuffle
    800 600 (by simp)).1
  rw [h]
  rfl
